import Mathlib

/-
Verification of the candle aggregation engine of crypto_bot.py.

The embedding below translates the engine state and the operations of the
CryptoBot class into Lean. Prices, volumes and turnover are modelled as
rationals; trade timestamps are naturals counting milliseconds since the
epoch. Fields that belong to the transport glue (websocket handles, the
running flag, the diagnostic live_trades ring buffer, file persistence)
carry no claim-relevant state and are omitted from the state record.
-/

/-- A finalized candle, the row appended to historical_data by
finalize_candle (source lines 218 to 226): timestamp, open, high, low,
close, volume, turnover. The open price field is named open_ because
open is a Lean keyword. -/
structure Candle where
  timestamp : Nat
  open_ : ℚ
  high : ℚ
  low : ℚ
  close : ℚ
  volume : ℚ
  turnover : ℚ
deriving DecidableEq, Repr

/-- The in-progress candle dictionary self.current_candle (source lines
176 to 185): open, high, low and close start as None and are set on the
first trade, so they are Options here. -/
structure CurrentCandle where
  timestamp : Nat
  open_ : Option ℚ
  high : Option ℚ
  low : Option ℚ
  close : Option ℚ
  volume : ℚ
  turnover : ℚ
  trade_count : Nat
deriving DecidableEq, Repr

/-- A trade event as decoded in on_message (source lines 249 to 251):
exchange timestamp in milliseconds, price, volume. -/
structure Trade where
  timestamp : Nat
  price : ℚ
  volume : ℚ
deriving DecidableEq, Repr

/-- The claim-relevant mutable state of CryptoBot: the finalized candle
sequence self.historical_data, the in-progress bucket self.current_candle
and the open bucket start self.candle_start_time (source lines 37 to 40). -/
structure BotState where
  historical_data : List Candle
  current_candle : Option CurrentCandle
  candle_start_time : Option Nat
deriving DecidableEq, Repr

/-- The state right after CryptoBot.__init__: empty sequence, no bucket,
no bucket start (source lines 37 to 40). -/
def initState : BotState :=
  { historical_data := [], current_candle := none, candle_start_time := none }

/-- Truncation of a millisecond timestamp to its minute boundary, the
model of datetime.fromtimestamp(timestamp / 1000) followed by
replace(second=0, microsecond=0) in on_message (source lines 261 to 262),
with the bucket start kept in milliseconds. -/
def truncMinute (t : Nat) : Nat := t / 60000 * 60000

/-- Embedding of update_current_candle (source lines 189 to 209): on the
first trade of a bucket (open is None) it sets open, high and low to the
price, otherwise it folds the price into high and low; close, volume,
turnover and trade_count are updated unconditionally. The source reads
high and low directly in the else branch; they are always set whenever
open is, and getD supplies the price as an irrelevant default to keep the
function total. -/
def update_current_candle (c : CurrentCandle) (price volume : ℚ) : CurrentCandle :=
  let c1 :=
    match c.open_ with
    | none => { c with open_ := some price, high := some price, low := some price }
    | some _ =>
        { c with high := some (max (c.high.getD price) price),
                 low := some (min (c.low.getD price) price) }
  { c1 with close := some price,
            volume := c1.volume + volume,
            turnover := c1.turnover + price * volume,
            trade_count := c1.trade_count + 1 }

/-- Embedding of finalize_candle (source lines 211 to 235): when a bucket
exists and its open is not None, a row with its fields is appended to
historical_data. Nothing else changes; in particular the builder is not
reset. The periodic CSV save on every tenth candle is persistence glue
and carries no engine state. As in update_current_candle, getD supplies
an irrelevant default for fields that are always set together with open. -/
def finalize_candle (s : BotState) : BotState :=
  match s.current_candle with
  | none => s
  | some c =>
    match c.open_ with
    | none => s
    | some o =>
      { s with historical_data := s.historical_data ++
          [{ timestamp := c.timestamp, open_ := o, high := c.high.getD o,
             low := c.low.getD o, close := c.close.getD o,
             volume := c.volume, turnover := c.turnover }] }

/-- The rollover branch of on_message (source lines 264 to 280): finalize
the previous bucket when one exists, then open a fresh bucket seeded with
the incoming trade. -/
def start_new_candle (s : BotState) (price volume : ℚ) (current_minute : Nat) : BotState :=
  { (if s.current_candle.isSome then finalize_candle s else s) with
    candle_start_time := some current_minute,
    current_candle := some {
      timestamp := current_minute, open_ := some price, high := some price,
      low := some price, close := some price, volume := volume,
      turnover := price * volume, trade_count := 1 } }

/-- Processing of a single trade inside on_message (source lines 248 to
283). The source condition is a disjunction, candle_start_time is None or
current_minute is greater than it; it is rendered here as a match with the
same two rollover cases. Every other trade, including one whose minute is
strictly earlier than the open bucket start, falls into the else branch
and is merged into the current bucket by update_current_candle. -/
def on_message_trade (s : BotState) (price volume : ℚ) (timestamp : Nat) : BotState :=
  match s.candle_start_time with
  | none => start_new_candle s price volume (truncMinute timestamp)
  | some st =>
    if st < truncMinute timestamp then
      start_new_candle s price volume (truncMinute timestamp)
    else
      { s with current_candle :=
          Option.map (fun c => update_current_candle c price volume) s.current_candle }

/-- on_message iterates over the trades carried by one websocket message
in arrival order (source line 248); successive messages concatenate, so a
whole ingestion history is one fold. -/
def on_message (s : BotState) (trades : List Trade) : BotState :=
  trades.foldl (fun s t => on_message_trade s t.price t.volume t.timestamp) s

/-- Model of pandas DataFrame.tail as used by get_latest_data: for a
non-negative n it keeps the last n rows (all of them when the frame is
shorter), and for a negative n it keeps all rows except the first
absolute-value-of-n. -/
def pandasTail {α : Type} (l : List α) (n : Int) : List α :=
  if 0 ≤ n then l.drop (l.length - n.toNat) else l.drop (-n).toNat

/-- Embedding of get_latest_data (source lines 364 to 374): under the lock
it returns historical_data.tail(rows) when the frame is non-empty and an
empty frame otherwise. The returned pair carries the unchanged state to
record that the body performs no assignment. -/
def get_latest_data (s : BotState) (rows : Int) : List Candle × BotState :=
  (if 0 < s.historical_data.length then pandasTail s.historical_data rows else [], s)

/-- Embedding of get_current_candle_info (source lines 376 to 383): under
the lock it returns a copy of the in-progress bucket, or None when there
is none; the copy is modelled as the value itself. The returned pair
carries the unchanged state to record that the body performs no
assignment. -/
def get_current_candle_info (s : BotState) : Option CurrentCandle × BotState :=
  (s.current_candle, s)

/-- The comparison used to sort fetched klines, timestamp ascending. -/
def byTime (a b : Candle) : Prop := a.timestamp ≤ b.timestamp

instance : DecidableRel byTime := fun a b => Nat.decLe a.timestamp b.timestamp

instance : IsTotal Candle byTime := ⟨fun a b => Nat.le_total a.timestamp b.timestamp⟩

instance : IsTrans Candle byTime := ⟨fun _ _ _ h1 h2 => Nat.le_trans h1 h2⟩

/-- Embedding of the successful path of fetch_historical_data (source
lines 105 to 166): the parsed kline rows are sorted by timestamp
ascending and assigned wholesale to historical_data. The source performs
no deduplication and no check that ingestion has not begun; the bucket
state is untouched. The pandas sort_values call is modelled as an
insertion sort by timestamp. -/
def fetch_historical_data (s : BotState) (klines : List Candle) : BotState :=
  { s with historical_data := List.insertionSort byTime klines }

/-
Lock discipline model. threading.Lock protects the state (source line 48);
each method body is abstracted to the sequence of lock transitions and
state accesses it performs, in source order. An access is a read or write
of historical_data, current_candle or candle_start_time.
-/

/-- One step of a method body: acquiring or releasing self.data_lock, or
touching the shared engine state. -/
inductive LockEvent where
  | acquire : LockEvent
  | release : LockEvent
  | readState : LockEvent
  | writeState : LockEvent
deriving DecidableEq, Repr

/-- Checks, carrying the current hold depth, that every state access in
the trace happens while the lock is held. -/
def accessesHeld : List LockEvent → Nat → Bool
  | [], _ => true
  | LockEvent.acquire :: evs, d => accessesHeld evs (d + 1)
  | LockEvent.release :: evs, d => accessesHeld evs (d - 1)
  | LockEvent.readState :: evs, d => decide (0 < d) && accessesHeld evs d
  | LockEvent.writeState :: evs, d => decide (0 < d) && accessesHeld evs d

/-- A trace holds the exclusive region across all of its state accesses. -/
def lockDisciplined (evs : List LockEvent) : Bool := accessesHeld evs 0

/-- Trace of update_current_candle (source lines 197 to 209): the whole
body, reading and mutating the bucket, sits inside the with-lock block. -/
def update_current_candle_events : List LockEvent :=
  [LockEvent.acquire, LockEvent.readState, LockEvent.writeState, LockEvent.release]

/-- Trace of finalize_candle (source lines 215 to 235): the body sits
inside the with-lock block; it reads the bucket and, when the bucket has
an open price, appends to the sequence. -/
def finalize_candle_events (appends : Bool) : List LockEvent :=
  [LockEvent.acquire, LockEvent.readState]
    ++ (if appends then [LockEvent.writeState] else []) ++ [LockEvent.release]

/-- Trace of the per-trade body of on_message (source lines 260 to 283):
the bucket-boundary check reads candle_start_time with no lock held (lines
261 to 264); on rollover it calls finalize_candle, which locks internally,
and then assigns candle_start_time and current_candle with no lock held
(lines 270 to 280); otherwise it calls update_current_candle, which locks
internally. -/
def on_message_trade_events (rollover has_candle : Bool) : List LockEvent :=
  LockEvent.readState ::
    (if rollover then
      (if has_candle then finalize_candle_events true else []) ++ [LockEvent.writeState]
    else update_current_candle_events)

/-- Trace of get_latest_data (source lines 371 to 374): the read happens
inside the with-lock block. -/
def get_latest_data_events : List LockEvent :=
  [LockEvent.acquire, LockEvent.readState, LockEvent.release]

/-- Trace of get_current_candle_info (source lines 380 to 383): the read
happens inside the with-lock block. -/
def get_current_candle_info_events : List LockEvent :=
  [LockEvent.acquire, LockEvent.readState, LockEvent.release]

/-- Trace of the successful path of fetch_historical_data (source lines
113 to 159): fetching, parsing and sorting happen with no lock held; only
the assignment to historical_data sits inside the with-lock block (lines
150 to 151). -/
def fetch_historical_data_events : List LockEvent :=
  [LockEvent.acquire, LockEvent.writeState, LockEvent.release]

/-
Helper predicates and small concrete states used by the theorems below.
-/

/-- Collapses consecutive duplicates; on a non-decreasing list this keeps
exactly the distinct values in order. -/
def dedupConsecutive : List Nat → List Nat
  | [] => []
  | [a] => [a]
  | a :: b :: rest =>
      if a = b then dedupConsecutive (b :: rest)
      else a :: dedupConsecutive (b :: rest)

/-- The truncated minute of a trade. -/
def tradeMinute (t : Trade) : Nat := truncMinute t.timestamp

/-- Inductive invariant for ingestion under non-decreasing timestamps:
finalized bucket starts are strictly increasing; before the first trade
the sequence is empty and no bucket exists; once a bucket start is set,
every finalized bucket start is strictly below it, and the in-progress
bucket exists, carries that start as its timestamp, and has its open
price set. -/
def GoodState (s : BotState) : Prop :=
  List.Chain' (· < ·) (s.historical_data.map Candle.timestamp)
  ∧ (s.candle_start_time = none → s.historical_data = [] ∧ s.current_candle = none)
  ∧ ∀ st, s.candle_start_time = some st →
      (∀ x ∈ s.historical_data.map Candle.timestamp, x < st)
      ∧ ∃ b, s.current_candle = some b ∧ b.timestamp = st ∧ b.open_.isSome = true

/-- Inductive invariant for the OHLC bounds: a bucket with its open price
set has high, low and close set, with low below open and close, open and
close below high, and a non-negative volume accumulator. -/
def BucketOk (b : CurrentCandle) : Prop :=
  0 ≤ b.volume ∧
  ∀ o, b.open_ = some o →
    ∃ h l cl, b.high = some h ∧ b.low = some l ∧ b.close = some cl ∧
      l ≤ o ∧ o ≤ h ∧ l ≤ cl ∧ cl ≤ h ∧ l ≤ h

/-- The OHLC candle invariant of the specification. -/
def CandleOk (c : Candle) : Prop :=
  c.low ≤ min c.open_ c.close ∧ max c.open_ c.close ≤ c.high ∧
  c.low ≤ c.high ∧ 0 ≤ c.volume

/-- Every finalized candle satisfies the OHLC invariant and the bucket, if
one exists, satisfies the bucket invariant. -/
def AllOk (s : BotState) : Prop :=
  (∀ c ∈ s.historical_data, CandleOk c) ∧
  ∀ b, s.current_candle = some b → BucketOk b

/-- A state in which two trades of bucket minute 120000 have been
ingested: an open bucket with volume 1 and no finalized candle. -/
def sLate : BotState := on_message initState [⟨120000, 100, 1⟩]

/-- A bucket holding one trade at price 100 and volume 5. -/
def bEx : CurrentCandle :=
  { timestamp := 60000, open_ := some 100, high := some 100, low := some 100,
    close := some 100, volume := 5, turnover := 500, trade_count := 1 }

/-- A state whose in-progress bucket is bEx. -/
def sEx : BotState :=
  { historical_data := [], current_candle := some bEx, candle_start_time := some 60000 }

/-- Three distinct finalized candles at timestamps 0, 1 and 2. -/
def cA : Candle := ⟨0, 1, 1, 1, 1, 1, 1⟩

def cB : Candle := ⟨1, 2, 2, 2, 2, 2, 2⟩

def cC : Candle := ⟨2, 3, 3, 3, 3, 3, 3⟩

/-- A state with three finalized candles and no open bucket. -/
def s3 : BotState := ⟨[cA, cB, cC], none, none⟩

/-- Two distinct seed candles sharing the timestamp 60000. -/
def dA : Candle := ⟨60000, 1, 1, 1, 1, 1, 1⟩

def dB : Candle := ⟨60000, 2, 2, 2, 2, 2, 2⟩

/-
Theorems.
-/

/-- C10: the read queries get_latest_data and get_current_candle_info
leave the finalized sequence, the in-progress bucket and the bucket start
exactly as they were, and get_current_candle_info returns the value of
the in-progress bucket (or nothing when none exists). -/
theorem c10_read_queries_pure (s : BotState) (rows : Int) :
    (get_latest_data s rows).2 = s ∧
    (get_current_candle_info s).2 = s ∧
    (get_current_candle_info s).1 = s.current_candle :=
  ⟨rfl, rfl, rfl⟩

/-- C2 counterexample: a zero-volume trade is not a no-op contribution.
On the bucket bEx (high 100, trade_count 1), an update at price 200 with
volume 0 moves high to 200 and trade_count to 2, so the OHLC fields and
accumulators are not left unchanged. -/
theorem c2_counterexample :
    (update_current_candle bEx 200 0).high = some 200 ∧
    bEx.high = some 100 ∧
    (update_current_candle bEx 200 0).trade_count = 2 ∧
    bEx.trade_count = 1 := by
  decide

/-- C2 amended: for every call of update_current_candle on a bucket whose
open price is set, the bucket afterwards has high = max(old high, price),
low = min(old low, price), close = price, volume increased by the trade
volume, turnover increased by price times volume, and trade_count
increased by one — for every volume, including non-positive volumes,
which are not a no-op (a zero-volume trade still moves close, high, low
and trade_count, though it leaves the volume and turnover sums
numerically unchanged). -/
theorem c2_update_characterization (c : CurrentCandle) (price volume o h l : ℚ)
    (ho : c.open_ = some o) (hh : c.high = some h) (hl : c.low = some l) :
    (update_current_candle c price volume).high = some (max h price) ∧
    (update_current_candle c price volume).low = some (min l price) ∧
    (update_current_candle c price volume).close = some price ∧
    (update_current_candle c price volume).volume = c.volume + volume ∧
    (update_current_candle c price volume).turnover = c.turnover + price * volume ∧
    (update_current_candle c price volume).trade_count = c.trade_count + 1 ∧
    (update_current_candle c price volume).open_ = some o ∧
    (update_current_candle c price volume).timestamp = c.timestamp := by
  simp [update_current_candle, ho, hh, hl]

/-- C2 witness: the characterization applied to the concrete bucket bEx
with price 50 and volume 2. -/
theorem c2_update_witness :
    bEx.open_ = some 100 ∧
    ((update_current_candle bEx 50 2).high = some (max 100 50) ∧
     (update_current_candle bEx 50 2).low = some (min 100 50) ∧
     (update_current_candle bEx 50 2).close = some 50 ∧
     (update_current_candle bEx 50 2).volume = bEx.volume + 2 ∧
     (update_current_candle bEx 50 2).turnover = bEx.turnover + 50 * 2 ∧
     (update_current_candle bEx 50 2).trade_count = bEx.trade_count + 1 ∧
     (update_current_candle bEx 50 2).open_ = some 100 ∧
     (update_current_candle bEx 50 2).timestamp = bEx.timestamp) :=
  ⟨rfl, c2_update_characterization bEx 50 2 100 100 100 rfl rfl rfl⟩

/-- C3 counterexample: latest with a negative argument does not return
the empty sequence. On the three-candle state s3, get_latest_data with
-1 returns the last two candles, because pandas tail with a negative n
keeps all rows except the first so many. -/
theorem c3_counterexample :
    (get_latest_data s3 (-1)).1 = [cB, cC] ∧
    (get_latest_data s3 (-1)).1 ≠ [] := by
  decide

/-- Helper: the non-empty guard in get_latest_data is redundant, the
result is always pandas tail of the sequence. -/
theorem get_latest_eq_tail (s : BotState) (n : Int) :
    (get_latest_data s n).1 = pandasTail s.historical_data n := by
  by_cases hpos : 0 < s.historical_data.length
  · simp [get_latest_data, hpos]
  · have hnil : s.historical_data = [] :=
      List.eq_nil_of_length_eq_zero (by omega)
    simp [get_latest_data, pandasTail, hnil]

/-- C3 amended: for a non-negative n, get_latest_data returns exactly the
last n finalized candles in order (the whole sequence when it is shorter
than n, the empty sequence at n = 0); for a negative n it returns all
candles except the first so many, not the empty sequence. In all cases
the result is a suffix of the sequence. -/
theorem c3_latest_characterization (s : BotState) (n : Int) :
    (get_latest_data s n).1 =
      (if 0 ≤ n then s.historical_data.drop (s.historical_data.length - n.toNat)
       else s.historical_data.drop (-n).toNat) ∧
    (∃ pre, s.historical_data = pre ++ (get_latest_data s n).1) ∧
    (get_latest_data s n).1.length =
      (if 0 ≤ n then min n.toNat s.historical_data.length
       else s.historical_data.length - (-n).toNat) := by
  rw [get_latest_eq_tail]
  unfold pandasTail
  by_cases hn : 0 ≤ n
  · refine ⟨by rw [if_pos hn], ⟨s.historical_data.take (s.historical_data.length - n.toNat), ?_⟩, ?_⟩
    · rw [if_pos hn, List.take_append_drop]
    · rw [if_pos hn, if_pos hn, List.length_drop]
      omega
  · refine ⟨by rw [if_neg hn], ⟨s.historical_data.take (-n).toNat, ?_⟩, ?_⟩
    · rw [if_neg hn, List.take_append_drop]
    · rw [if_neg hn, if_neg hn, List.length_drop]

/-- C1 counterexample: a late trade is not dropped. In the state sLate
the open bucket starts at 120000; a trade of minute 60000 (strictly
earlier) is merged into that bucket, changing the in-progress bucket
instead of leaving it unchanged, and no drop counter exists in the
state. -/
theorem c1_counterexample :
    truncMinute 60000 < 120000 ∧
    sLate.candle_start_time = some 120000 ∧
    (on_message_trade sLate 50 2 60000).current_candle ≠ sLate.current_candle := by
  decide

/-- C1 amended: for every trade whose truncated bucket start is strictly
earlier than the current open bucket start, ingest merges the trade into
the current open bucket via update_current_candle rather than dropping
it; the finalized candle sequence and the bucket start time are
unchanged, so already-finalized candles are unaffected, and no drop
counter exists to be incremented. -/
theorem c1_late_trade_merged (s : BotState) (price volume : ℚ) (t st : Nat)
    (hst : s.candle_start_time = some st) (hlate : truncMinute t < st) :
    (on_message_trade s price volume t).historical_data = s.historical_data ∧
    (on_message_trade s price volume t).candle_start_time = s.candle_start_time ∧
    (on_message_trade s price volume t).current_candle =
      Option.map (fun b => update_current_candle b price volume) s.current_candle := by
  have hnot : ¬ st < truncMinute t := by omega
  simp [on_message_trade, hst, hnot]

/-- C1 witness: the amended statement applied to the concrete state sLate
and a trade of minute 60000 arriving while the bucket of 120000 is open. -/
theorem c1_late_trade_witness :
    sLate.candle_start_time = some 120000 ∧ truncMinute 60000 < 120000 ∧
    ((on_message_trade sLate 50 2 60000).historical_data = sLate.historical_data ∧
     (on_message_trade sLate 50 2 60000).candle_start_time = sLate.candle_start_time ∧
     (on_message_trade sLate 50 2 60000).current_candle =
       Option.map (fun b => update_current_candle b 50 2) sLate.current_candle) :=
  ⟨by decide, by decide, c1_late_trade_merged sLate 50 2 60000 120000 (by decide) (by decide)⟩

/-- C4 counterexample: finalize_candle does not reset the builder, so two
consecutive finalize calls with no intervening trade append two candles,
not at most one. Starting from sEx with an empty sequence and an open
bucket, the bucket survives the first finalize and the second finalize
appends it again. -/
theorem c4_counterexample :
    sEx.historical_data = [] ∧
    (finalize_candle sEx).current_candle = some bEx ∧
    (finalize_candle (finalize_candle sEx)).historical_data.length = 2 := by
  decide

/-- C4 amended: finalize_candle on a builder holding at least one trade
(open set) appends exactly one candle snapshot of the bucket to the
sequence, leaving the in-progress bucket and the bucket start unchanged
(the builder is not reset); finalize_candle with no bucket or an empty
bucket (open not set) is a no-op that raises no error. -/
theorem c4_finalize_characterization (s : BotState) :
    (∀ b o, s.current_candle = some b → b.open_ = some o →
      (finalize_candle s).historical_data = s.historical_data ++
        [{ timestamp := b.timestamp, open_ := o, high := b.high.getD o,
           low := b.low.getD o, close := b.close.getD o,
           volume := b.volume, turnover := b.turnover }] ∧
      (finalize_candle s).current_candle = s.current_candle ∧
      (finalize_candle s).candle_start_time = s.candle_start_time) ∧
    ((s.current_candle = none ∨ ∃ b, s.current_candle = some b ∧ b.open_ = none) →
      finalize_candle s = s) := by
  constructor
  · intro b o hb ho
    simp [finalize_candle, hb, ho]
  · rintro (hnone | ⟨b, hb, ho⟩)
    · simp [finalize_candle, hnone]
    · simp [finalize_candle, hb, ho]

/-- C4 witness: the amended statement applied to the concrete state sEx
(one open bucket, appended once and kept) and to initState (empty
builder, no-op). -/
theorem c4_finalize_witness :
    sEx.current_candle = some bEx ∧ bEx.open_ = some 100 ∧
    ((finalize_candle sEx).historical_data = sEx.historical_data ++
       [{ timestamp := bEx.timestamp, open_ := 100, high := bEx.high.getD 100,
          low := bEx.low.getD 100, close := bEx.close.getD 100,
          volume := bEx.volume, turnover := bEx.turnover }] ∧
     (finalize_candle sEx).current_candle = sEx.current_candle ∧
     (finalize_candle sEx).candle_start_time = sEx.candle_start_time) ∧
    finalize_candle initState = initState :=
  ⟨rfl, rfl, (c4_finalize_characterization sEx).1 bEx 100 rfl rfl,
   (c4_finalize_characterization initState).2 (Or.inl rfl)⟩

/-- C5 counterexample: seeding neither deduplicates by timestamp nor
fails after ingestion has begun. Seeding with two distinct candles
sharing timestamp 60000 keeps both; and seeding the state sLate, whose
ingestion has begun (an open bucket exists), still replaces the sequence
(from empty to one candle) instead of failing with SeedConflict and
leaving it unchanged. -/
theorem c5_counterexample :
    (fetch_historical_data initState [dA, dB]).historical_data = [dA, dB] ∧
    dA.timestamp = dB.timestamp ∧ dA ≠ dB ∧
    sLate.candle_start_time = some 120000 ∧
    sLate.historical_data = [] ∧
    (fetch_historical_data sLate [dA]).historical_data = [dA] := by
  decide

/-- C5 amended: seed replaces the candle sequence wholesale with the
supplied candles sorted ascending by timestamp, retaining duplicate
timestamps; no conflict check exists, so the replacement also happens
after ingestion has begun, while the in-progress bucket and the bucket
start are left untouched. -/
theorem c5_seed_characterization (s : BotState) (klines : List Candle) :
    List.Perm (fetch_historical_data s klines).historical_data klines ∧
    List.Sorted byTime (fetch_historical_data s klines).historical_data ∧
    (fetch_historical_data s klines).current_candle = s.current_candle ∧
    (fetch_historical_data s klines).candle_start_time = s.candle_start_time :=
  ⟨List.perm_insertionSort byTime klines, List.sorted_insertionSort byTime klines,
   rfl, rfl⟩

/-- C9 counterexample: the ingest path does not hold the exclusive-access
region for its full duration. The trace of the per-trade body of
on_message on the rollover path reads the bucket start and writes the new
bucket and bucket start with the lock not held, so its accesses are not
all made under the lock. -/
theorem c9_counterexample :
    lockDisciplined (on_message_trade_events true true) = false := by
  decide

/-- C9 amended: the builder operations update_current_candle and
finalize_candle, the read queries get_latest_data and
get_current_candle_info, and the seed assignment each hold the
exclusive-access region across all of their state accesses, but ingest
does not: the per-trade body of on_message reads the bucket start outside
the region on every path, and on the rollover path also writes the new
bucket and bucket start outside the region. -/
theorem c9_lock_regions :
    lockDisciplined update_current_candle_events = true ∧
    lockDisciplined (finalize_candle_events true) = true ∧
    lockDisciplined (finalize_candle_events false) = true ∧
    lockDisciplined get_latest_data_events = true ∧
    lockDisciplined get_current_candle_info_events = true ∧
    lockDisciplined fetch_historical_data_events = true ∧
    lockDisciplined (on_message_trade_events false true) = false ∧
    lockDisciplined (on_message_trade_events true false) = false := by
  decide

/-- Helper: truncation to the minute is monotone. -/
theorem truncMinute_mono {a b : Nat} (h : a ≤ b) : truncMinute a ≤ truncMinute b :=
  Nat.mul_le_mul_right _ (Nat.div_le_div_right h)

/-- Helper: updating a bucket does not change its timestamp. -/
theorem update_timestamp (c : CurrentCandle) (p v : ℚ) :
    (update_current_candle c p v).timestamp = c.timestamp := by
  cases h : c.open_ <;> simp [update_current_candle, h]

/-- Helper: an updated bucket always has its open price set. -/
theorem update_open_isSome (c : CurrentCandle) (p v : ℚ) :
    (update_current_candle c p v).open_.isSome = true := by
  cases h : c.open_ <;> simp [update_current_candle, h]

/-- Helper: finalize_candle leaves the in-progress bucket untouched. -/
theorem finalize_current (s : BotState) :
    (finalize_candle s).current_candle = s.current_candle := by
  rcases hc : s.current_candle with _ | c
  · simp [finalize_candle, hc]
  · rcases ho : c.open_ with _ | o <;> simp [finalize_candle, hc, ho]

/-- Helper: finalize_candle leaves the bucket start untouched. -/
theorem finalize_start (s : BotState) :
    (finalize_candle s).candle_start_time = s.candle_start_time := by
  rcases hc : s.current_candle with _ | c
  · simp [finalize_candle, hc]
  · rcases ho : c.open_ with _ | o <;> simp [finalize_candle, hc, ho]

/-- Helper: finalize_candle only ever appends to the sequence. -/
theorem finalize_hist_suffix (s : BotState) :
    ∃ r, (finalize_candle s).historical_data = s.historical_data ++ r := by
  rcases hc : s.current_candle with _ | c
  · exact ⟨[], by simp [finalize_candle, hc]⟩
  · rcases ho : c.open_ with _ | o
    · exact ⟨[], by simp [finalize_candle, hc, ho]⟩
    · refine ⟨[Candle.mk c.timestamp o (c.high.getD o) (c.low.getD o)
          (c.close.getD o) c.volume c.turnover], ?_⟩
      simp [finalize_candle, hc, ho]

/-- Helper: the rollover branch only ever appends to the sequence. -/
theorem start_new_hist_suffix (s : BotState) (p v : ℚ) (m : Nat) :
    ∃ r, (start_new_candle s p v m).historical_data = s.historical_data ++ r := by
  by_cases hc : s.current_candle.isSome
  · obtain ⟨r, hr⟩ := finalize_hist_suffix s
    exact ⟨r, by simp [start_new_candle, hc, hr]⟩
  · exact ⟨[], by simp [start_new_candle, hc]⟩

/-- Helper: processing one trade only ever appends to the sequence. -/
theorem on_message_trade_hist_suffix (s : BotState) (p v : ℚ) (t : Nat) :
    ∃ r, (on_message_trade s p v t).historical_data = s.historical_data ++ r := by
  rcases hst : s.candle_start_time with _ | st
  · simpa [on_message_trade, hst] using start_new_hist_suffix s p v (truncMinute t)
  · by_cases h : st < truncMinute t
    · simpa [on_message_trade, hst, h] using start_new_hist_suffix s p v (truncMinute t)
    · exact ⟨[], by simp [on_message_trade, hst, h]⟩

/-- Helper: processing any trade list only ever appends to the sequence. -/
theorem on_message_hist_suffix (ts : List Trade) :
    ∀ s, ∃ r, (on_message s ts).historical_data = s.historical_data ++ r := by
  induction ts with
  | nil => exact fun s => ⟨[], by simp [on_message]⟩
  | cons t ts ih =>
    intro s
    obtain ⟨r1, h1⟩ := on_message_trade_hist_suffix s t.price t.volume t.timestamp
    obtain ⟨r2, h2⟩ := ih (on_message_trade s t.price t.volume t.timestamp)
    refine ⟨r1 ++ r2, ?_⟩
    have hstep : on_message s (t :: ts)
        = on_message (on_message_trade s t.price t.volume t.timestamp) ts := rfl
    rw [hstep, h2, h1, List.append_assoc]

/-- Helper: appending a strict upper bound keeps a strictly increasing
list strictly increasing. -/
theorem chain'_snoc_lt {H : List Nat} {a : Nat}
    (hH : List.Chain' (· < ·) H) (hlt : ∀ x ∈ H, x < a) :
    List.Chain' (· < ·) (H ++ [a]) := by
  rw [List.chain'_append]
  refine ⟨hH, List.chain'_singleton a, ?_⟩
  intro x hx y hy
  obtain ⟨hne, rfl⟩ := List.mem_getLast?_eq_getLast hx
  have hya : y = a := by simpa using hy.symm
  subst hya
  exact hlt _ (List.getLast_mem hne)

/-- Helper: the initial state satisfies the monotonicity invariant. -/
theorem good_init : GoodState initState := by
  refine ⟨by simp [initState], fun _ => ⟨rfl, rfl⟩, fun st h => by simp [initState] at h⟩

/-- Helper: the rollover branch establishes the monotonicity invariant as
soon as its target history is strictly increasing and strictly below the
new bucket start. -/
theorem good_start (s : BotState) (p v : ℚ) (m : Nat)
    (hchain : List.Chain' (· < ·)
      ((start_new_candle s p v m).historical_data.map Candle.timestamp))
    (hlt : ∀ x ∈ (start_new_candle s p v m).historical_data.map Candle.timestamp, x < m) :
    GoodState (start_new_candle s p v m) ∧
    (start_new_candle s p v m).candle_start_time = some m := by
  refine ⟨⟨hchain, ?_, ?_⟩, rfl⟩
  · intro h; cases h
  · intro st hst
    have hm : m = st := Option.some.inj hst
    subst hm
    exact ⟨hlt, ⟨_, rfl, rfl, rfl⟩⟩

/-- Helper: one trade whose minute is at or past the open bucket start
preserves the monotonicity invariant and leaves that minute as the new
bucket start. -/
theorem good_step (s : BotState) (p v : ℚ) (t : Nat)
    (hg : GoodState s)
    (hle : ∀ st, s.candle_start_time = some st → st ≤ truncMinute t) :
    GoodState (on_message_trade s p v t) ∧
    (on_message_trade s p v t).candle_start_time = some (truncMinute t) := by
  obtain ⟨hchain, hnone, hsome⟩ := hg
  rcases hst : s.candle_start_time with _ | st
  · obtain ⟨hhist, hcur⟩ := hnone hst
    have hred : on_message_trade s p v t = start_new_candle s p v (truncMinute t) := by
      simp [on_message_trade, hst]
    rw [hred]
    have hbase : (start_new_candle s p v (truncMinute t)).historical_data
        = s.historical_data := by
      simp [start_new_candle, hcur]
    apply good_start
    · rw [hbase, hhist]; simp
    · rw [hbase, hhist]; simp
  · obtain ⟨hbelow, b, hc, hts, hopen⟩ := hsome st hst
    by_cases hlt : st < truncMinute t
    · have hred : on_message_trade s p v t = start_new_candle s p v (truncMinute t) := by
        simp [on_message_trade, hst, hlt]
      rw [hred]
      obtain ⟨o, ho⟩ := Option.isSome_iff_exists.mp hopen
      have hcs : s.current_candle.isSome = true := by rw [hc]; rfl
      have hbase : (start_new_candle s p v (truncMinute t)).historical_data
          = s.historical_data ++
            [{ timestamp := b.timestamp, open_ := o, high := b.high.getD o,
               low := b.low.getD o, close := b.close.getD o,
               volume := b.volume, turnover := b.turnover }] := by
        simp [start_new_candle, hcs, finalize_candle, hc, ho]
      have hmap : (start_new_candle s p v (truncMinute t)).historical_data.map Candle.timestamp
          = s.historical_data.map Candle.timestamp ++ [st] := by
        rw [hbase, List.map_append]
        simp [hts]
      apply good_start
      · rw [hmap]
        exact chain'_snoc_lt hchain hbelow
      · rw [hmap]
        intro x hx
        rcases List.mem_append.mp hx with h1 | h2
        · exact Nat.lt_trans (hbelow x h1) hlt
        · rw [List.mem_singleton.mp h2]
          exact hlt
    · have hred : on_message_trade s p v t =
          { s with current_candle :=
              Option.map (fun c => update_current_candle c p v) s.current_candle } := by
        simp [on_message_trade, hst, hlt]
      have hstm : st = truncMinute t :=
        Nat.le_antisymm (hle st hst) (Nat.le_of_not_lt hlt)
      rw [hred]
      refine ⟨⟨hchain, ?_, ?_⟩, ?_⟩
      · intro h
        have h2 : s.candle_start_time = none := h
        rw [hst] at h2
        cases h2
      · intro st' hst'
        have h2 : s.candle_start_time = some st' := hst'
        rw [hst] at h2
        obtain rfl : st = st' := Option.some.inj h2
        refine ⟨hbelow, update_current_candle b p v, ?_, ?_, update_open_isSome b p v⟩
        · show Option.map (fun c => update_current_candle c p v) s.current_candle = _
          rw [hc]
          rfl
        · rw [update_timestamp]
          exact hts
      · show s.candle_start_time = some (truncMinute t)
        rw [hst]
        exact congrArg some hstm

/-- Helper: folding trades with non-decreasing bucket minutes, all at or
past the open bucket start, preserves the monotonicity invariant. -/
theorem good_fold (ts : List Trade) :
    ∀ s, GoodState s →
    List.Chain' (· ≤ ·) (ts.map tradeMinute) →
    (∀ st, s.candle_start_time = some st → ∀ m ∈ (ts.map tradeMinute).head?, st ≤ m) →
    GoodState (on_message s ts) := by
  induction ts with
  | nil => exact fun s hg _ _ => hg
  | cons t ts ih =>
    intro s hg hchain hhead
    have hle : ∀ st, s.candle_start_time = some st → st ≤ truncMinute t.timestamp := by
      intro st hst
      exact hhead st hst (tradeMinute t) (by simp [List.map_cons])
    obtain ⟨hg', hcst'⟩ := good_step s t.price t.volume t.timestamp hg hle
    have hstep : on_message s (t :: ts)
        = on_message (on_message_trade s t.price t.volume t.timestamp) ts := rfl
    rw [hstep]
    rw [List.map_cons] at hchain
    obtain ⟨hh, htl⟩ := List.chain'_cons'.mp hchain
    apply ih _ hg' htl
    intro st hst m hm
    have hsteq : st = truncMinute t.timestamp := by
      rw [hcst'] at hst
      exact (Option.some.inj hst).symm
    rw [hsteq]
    exact hh m hm

/-- C6: for any sequence of ingested trades with non-decreasing
timestamps, starting from the unseeded initial state, the finalized
sequence has strictly increasing bucket start timestamps with no
duplicates, and it is append-only: the sequence after any prefix of the
trades is a prefix of the final sequence. -/
theorem c6_monotonic_bucketing (ts1 ts2 : List Trade)
    (hsorted : List.Chain' (fun a b => a.timestamp ≤ b.timestamp) (ts1 ++ ts2)) :
    List.Pairwise (· < ·)
      ((on_message initState (ts1 ++ ts2)).historical_data.map Candle.timestamp) ∧
    ∃ r, (on_message initState (ts1 ++ ts2)).historical_data
        = (on_message initState ts1).historical_data ++ r := by
  constructor
  · have hmchain : List.Chain' (· ≤ ·) ((ts1 ++ ts2).map tradeMinute) := by
      rw [List.chain'_map]
      exact hsorted.imp fun a b h => truncMinute_mono h
    have hg := good_fold (ts1 ++ ts2) initState good_init hmchain
      (by intro st hst; simp [initState] at hst)
    exact List.chain'_iff_pairwise.mp hg.1
  · have hsplit : on_message initState (ts1 ++ ts2)
        = on_message (on_message initState ts1) ts2 := by
      unfold on_message
      exact List.foldl_append _ _ ts1 ts2
    rw [hsplit]
    exact on_message_hist_suffix ts2 (on_message initState ts1)

/-- C6 witness: the theorem applied to the concrete non-decreasing trade
history of one trade in minute 60000 followed by one in minute 120000. -/
theorem c6_monotonic_bucketing_witness :
    List.Chain' (fun a b => a.timestamp ≤ b.timestamp)
      ([Trade.mk 60000 1 1] ++ [Trade.mk 120000 2 1]) ∧
    (List.Pairwise (· < ·)
      (List.map Candle.timestamp
        (on_message initState ([Trade.mk 60000 1 1] ++ [Trade.mk 120000 2 1])).historical_data) ∧
     ∃ r, (on_message initState ([Trade.mk 60000 1 1] ++ [Trade.mk 120000 2 1])).historical_data
        = (on_message initState [Trade.mk 60000 1 1]).historical_data ++ r) :=
  ⟨by simp, c6_monotonic_bucketing [Trade.mk 60000 1 1] [Trade.mk 120000 2 1] (by simp)⟩

/-- Helper: a freshly started bucket satisfies the bucket invariant when
its seed volume is non-negative. -/
theorem bucket_new_ok (p v : ℚ) (m : Nat) (hv : 0 ≤ v) :
    BucketOk { timestamp := m, open_ := some p, high := some p, low := some p,
               close := some p, volume := v, turnover := p * v, trade_count := 1 } := by
  refine ⟨hv, ?_⟩
  intro o ho
  obtain rfl : p = o := Option.some.inj ho
  exact ⟨p, p, p, rfl, rfl, rfl, le_refl p, le_refl p, le_refl p, le_refl p, le_refl p⟩

/-- Helper: update_current_candle preserves the bucket invariant for a
trade of non-negative volume. -/
theorem bucket_update_ok (c : CurrentCandle) (p v : ℚ) (hv : 0 ≤ v) (hc : BucketOk c) :
    BucketOk (update_current_candle c p v) := by
  obtain ⟨hvol, hfields⟩ := hc
  rcases ho : c.open_ with _ | o
  · constructor
    · have : (update_current_candle c p v).volume = c.volume + v := by
        simp [update_current_candle, ho]
      rw [this]
      exact add_nonneg hvol hv
    · intro o' ho'
      have hop : (update_current_candle c p v).open_ = some p := by
        simp [update_current_candle, ho]
      obtain rfl : p = o' := Option.some.inj (hop.symm.trans ho')
      refine ⟨p, p, p, ?_, ?_, ?_, le_refl p, le_refl p, le_refl p, le_refl p, le_refl p⟩
      · simp [update_current_candle, ho]
      · simp [update_current_candle, ho]
      · simp [update_current_candle, ho]
  · obtain ⟨hi, lo, cl, hh, hl, hcl, b1, b2, b3, b4, b5⟩ := hfields o ho
    constructor
    · have : (update_current_candle c p v).volume = c.volume + v := by
        simp [update_current_candle, ho]
      rw [this]
      exact add_nonneg hvol hv
    · intro o' ho'
      have hop : (update_current_candle c p v).open_ = some o := by
        simp [update_current_candle, ho]
      obtain rfl : o = o' := Option.some.inj (hop.symm.trans ho')
      refine ⟨max hi p, min lo p, p, ?_, ?_, ?_, ?_, ?_, ?_, ?_, ?_⟩
      · simp [update_current_candle, ho, hh]
      · simp [update_current_candle, ho, hl]
      · simp [update_current_candle, ho]
      · exact le_trans (min_le_left lo p) b1
      · exact le_trans b2 (le_max_left hi p)
      · exact min_le_right lo p
      · exact le_max_right hi p
      · exact le_trans (min_le_right lo p) (le_max_right hi p)

/-- Helper: the initial state satisfies the OHLC invariant. -/
theorem allok_init : AllOk initState := by
  constructor
  · intro c hc
    simp [initState] at hc
  · intro b hb
    simp [initState] at hb

/-- Helper: finalize_candle preserves the OHLC invariant; the candle it
appends inherits the bounds of the bucket it snapshots. -/
theorem allok_finalize (s : BotState) (h : AllOk s) : AllOk (finalize_candle s) := by
  obtain ⟨hhist, hbuck⟩ := h
  rcases hc : s.current_candle with _ | b
  · constructor
    · intro c hcm
      rw [show finalize_candle s = s from by simp [finalize_candle, hc]] at hcm
      exact hhist c hcm
    · intro b' hb'
      rw [finalize_current s, hc] at hb'
      cases hb'
  · rcases ho : b.open_ with _ | o
    · constructor
      · intro c hcm
        rw [show finalize_candle s = s from by simp [finalize_candle, hc, ho]] at hcm
        exact hhist c hcm
      · intro b' hb'
        rw [finalize_current s, hc] at hb'
        obtain rfl : b = b' := Option.some.inj hb'
        exact hbuck b hc
    · obtain ⟨hv, hfields⟩ := hbuck b hc
      obtain ⟨hi, lo, cl, hh, hl, hcl, b1, b2, b3, b4, b5⟩ := hfields o ho
      constructor
      · intro c hcm
        rw [show (finalize_candle s).historical_data = s.historical_data ++
            [Candle.mk b.timestamp o (b.high.getD o) (b.low.getD o)
              (b.close.getD o) b.volume b.turnover] from by
            simp [finalize_candle, hc, ho]] at hcm
        rcases List.mem_append.mp hcm with h1 | h2
        · exact hhist c h1
        · rw [List.mem_singleton.mp h2]
          refine ⟨?_, ?_, ?_, hv⟩
          · show b.low.getD o ≤ min o (b.close.getD o)
            rw [hl, hcl]
            simp only [Option.getD_some]
            exact le_min b1 b3
          · show max o (b.close.getD o) ≤ b.high.getD o
            rw [hh, hcl]
            simp only [Option.getD_some]
            exact max_le b2 b4
          · show b.low.getD o ≤ b.high.getD o
            rw [hl, hh]
            simp only [Option.getD_some]
            exact b5
      · intro b' hb'
        rw [finalize_current s, hc] at hb'
        obtain rfl : b = b' := Option.some.inj hb'
        exact hbuck b hc

/-- Helper: the rollover branch preserves the OHLC invariant for a trade
of non-negative volume. -/
theorem allok_start (s : BotState) (p v : ℚ) (m : Nat) (hv : 0 ≤ v) (h : AllOk s) :
    AllOk (start_new_candle s p v m) := by
  have hbase : AllOk (if s.current_candle.isSome then finalize_candle s else s) := by
    by_cases hc : s.current_candle.isSome
    · rw [if_pos hc]
      exact allok_finalize s h
    · rw [if_neg hc]
      exact h
  constructor
  · intro c hcm
    exact hbase.1 c hcm
  · intro b hb
    have hb2 : some (CurrentCandle.mk m (some p) (some p) (some p) (some p)
        v (p * v) 1) = some b := hb
    obtain rfl := Option.some.inj hb2
    exact bucket_new_ok p v m hv

/-- Helper: processing one trade of non-negative volume preserves the
OHLC invariant. -/
theorem allok_step (s : BotState) (p v : ℚ) (t : Nat) (hv : 0 ≤ v) (h : AllOk s) :
    AllOk (on_message_trade s p v t) := by
  rcases hst : s.candle_start_time with _ | st
  · rw [show on_message_trade s p v t = start_new_candle s p v (truncMinute t) from by
      simp [on_message_trade, hst]]
    exact allok_start s p v (truncMinute t) hv h
  · by_cases hlt : st < truncMinute t
    · rw [show on_message_trade s p v t = start_new_candle s p v (truncMinute t) from by
        simp [on_message_trade, hst, hlt]]
      exact allok_start s p v (truncMinute t) hv h
    · have hred : on_message_trade s p v t =
          { s with current_candle :=
              Option.map (fun c => update_current_candle c p v) s.current_candle } := by
        simp [on_message_trade, hst, hlt]
      rw [hred]
      constructor
      · intro c hcm
        exact h.1 c hcm
      · intro b hb
        have hb2 : Option.map (fun c => update_current_candle c p v) s.current_candle
            = some b := hb
        obtain ⟨b0, hb0, hupd⟩ := Option.map_eq_some'.mp hb2
        rw [← hupd]
        exact bucket_update_ok b0 p v hv (h.2 b0 hb0)

/-- Helper: processing a list of trades of non-negative volume preserves
the OHLC invariant. -/
theorem allok_fold (ts : List Trade) :
    ∀ s, (∀ t ∈ ts, 0 ≤ t.volume) → AllOk s → AllOk (on_message s ts) := by
  induction ts with
  | nil => exact fun s _ h => h
  | cons t ts ih =>
    intro s hvol h
    have hstep : on_message s (t :: ts)
        = on_message (on_message_trade s t.price t.volume t.timestamp) ts := rfl
    rw [hstep]
    exact ih _ (fun u hu => hvol u (List.mem_cons_of_mem t hu))
      (allok_step s t.price t.volume t.timestamp (hvol t (List.mem_cons_self t ts)) h)

/-- C7: every finalized candle produced by ingesting trades of
non-negative volume from the unseeded initial state, including the candle
flushed from the last open bucket, satisfies low below both open and
close, high above both open and close, low below high, and non-negative
volume. -/
theorem c7_ohlc_invariant (ts : List Trade) (hvol : ∀ t ∈ ts, 0 ≤ t.volume) :
    ∀ c ∈ (finalize_candle (on_message initState ts)).historical_data,
      c.low ≤ min c.open_ c.close ∧ max c.open_ c.close ≤ c.high ∧
      c.low ≤ c.high ∧ 0 ≤ c.volume := by
  have hall := allok_finalize _ (allok_fold ts initState hvol allok_init)
  intro c hc
  exact hall.1 c hc

/-- C7 witness: the theorem applied to a concrete history of three trades
in two buckets, all with non-negative volume. -/
theorem c7_ohlc_invariant_witness :
    (∀ t ∈ [Trade.mk 36005000 100 1, Trade.mk 36010000 90 2, Trade.mk 36130000 101 2],
      0 ≤ t.volume) ∧
    ∀ c ∈ (finalize_candle (on_message initState
        [Trade.mk 36005000 100 1, Trade.mk 36010000 90 2, Trade.mk 36130000 101 2])).historical_data,
      c.low ≤ min c.open_ c.close ∧ max c.open_ c.close ≤ c.high ∧
      c.low ≤ c.high ∧ 0 ≤ c.volume :=
  ⟨by decide, c7_ohlc_invariant
    [Trade.mk 36005000 100 1, Trade.mk 36010000 90 2, Trade.mk 36130000 101 2] (by decide)⟩

/-- Helper: collapsing consecutive duplicates of a non-empty list never
yields the empty list. -/
theorem dedupConsecutive_ne_nil (a : Nat) (l : List Nat) :
    dedupConsecutive (a :: l) ≠ [] := by
  induction l generalizing a with
  | nil => simp [dedupConsecutive]
  | cons b l ih =>
    by_cases hab : a = b
    · rw [show dedupConsecutive (a :: b :: l) = dedupConsecutive (b :: l) from by
        simp [dedupConsecutive, hab]]
      exact ih b
    · rw [show dedupConsecutive (a :: b :: l) = a :: dedupConsecutive (b :: l) from by
        simp [dedupConsecutive, hab]]
      simp

/-- Helper: processing trades whose bucket minutes form a non-decreasing
chain above the open bucket start extends the finalized timestamps by
exactly the distinct bucket minutes in order, except the last one, whose
bucket stays in progress because the program finalizes a bucket only when
a strictly later bucket arrives. -/
theorem c8_aux (ts : List Trade) :
    ∀ (s : BotState) (st : Nat) (b : CurrentCandle),
    s.candle_start_time = some st → s.current_candle = some b →
    b.timestamp = st → b.open_.isSome = true →
    List.Chain (· ≤ ·) st (ts.map tradeMinute) →
    (on_message s ts).historical_data.map Candle.timestamp =
      s.historical_data.map Candle.timestamp ++
        (dedupConsecutive (st :: ts.map tradeMinute)).dropLast := by
  induction ts with
  | nil =>
    intro s st b hst hc hts hopen _
    have hnil : on_message s [] = s := rfl
    rw [hnil]
    simp [dedupConsecutive]
  | cons t ts ih =>
    intro s st b hst hc hts hopen hchain
    rw [List.map_cons, List.chain_cons] at hchain
    obtain ⟨hstm, hchain2⟩ := hchain
    have hstep : on_message s (t :: ts)
        = on_message (on_message_trade s t.price t.volume t.timestamp) ts := rfl
    rw [hstep]
    rw [show List.map tradeMinute (t :: ts) = tradeMinute t :: List.map tradeMinute ts
      from rfl]
    by_cases hlt : st < tradeMinute t
    · obtain ⟨o, ho⟩ := Option.isSome_iff_exists.mp hopen
      have hcs : s.current_candle.isSome = true := by rw [hc]; rfl
      have hlt' : st < truncMinute t.timestamp := hlt
      have hred : on_message_trade s t.price t.volume t.timestamp
          = start_new_candle s t.price t.volume (truncMinute t.timestamp) := by
        simp [on_message_trade, hst, hlt']
      rw [hred]
      have hihyp := ih (start_new_candle s t.price t.volume (truncMinute t.timestamp))
          (tradeMinute t)
          (CurrentCandle.mk (truncMinute t.timestamp) (some t.price) (some t.price)
            (some t.price) (some t.price) t.volume (t.price * t.volume) 1)
          rfl rfl rfl rfl hchain2
      rw [hihyp]
      have hbase : (start_new_candle s t.price t.volume
            (truncMinute t.timestamp)).historical_data
          = s.historical_data ++ [Candle.mk b.timestamp o (b.high.getD o) (b.low.getD o)
              (b.close.getD o) b.volume b.turnover] := by
        simp [start_new_candle, hcs, finalize_candle, hc, ho]
      rw [hbase, List.map_append]
      have hne : ¬ st = tradeMinute t := Nat.ne_of_lt hlt
      have hded : dedupConsecutive (st :: tradeMinute t :: ts.map tradeMinute)
          = st :: dedupConsecutive (tradeMinute t :: ts.map tradeMinute) := by
        simp [dedupConsecutive, hne]
      rw [hded, List.dropLast_cons_of_ne_nil (dedupConsecutive_ne_nil _ _),
        List.append_assoc]
      simp [hts]
    · have heq : tradeMinute t = st := Nat.le_antisymm (Nat.le_of_not_lt hlt) hstm
      have hlt' : ¬ st < truncMinute t.timestamp := hlt
      have hred : on_message_trade s t.price t.volume t.timestamp =
          { s with current_candle :=
              Option.map (fun c => update_current_candle c t.price t.volume) s.current_candle } := by
        simp [on_message_trade, hst, hlt']
      rw [hred]
      have hcur' : Option.map (fun c => update_current_candle c t.price t.volume)
          s.current_candle = some (update_current_candle b t.price t.volume) := by
        rw [hc]
        rfl
      rw [heq] at hchain2
      have hihyp := ih
          { s with current_candle :=
              Option.map (fun c => update_current_candle c t.price t.volume) s.current_candle }
          st (update_current_candle b t.price t.volume) hst hcur'
          ((update_timestamp b t.price t.volume).trans hts)
          (update_open_isSome b t.price t.volume) hchain2
      rw [hihyp]
      have hded : dedupConsecutive (st :: tradeMinute t :: ts.map tradeMinute)
          = dedupConsecutive (st :: ts.map tradeMinute) := by
        rw [heq]
        simp [dedupConsecutive]
      rw [hded]

/-- C8 counterexample: ingesting exactly the trades of the claim, at
10:00:05 (second 36005, price 100, volume 1) and 10:02:10 (second 36130,
price 101, volume 2), yields exactly ONE finalized candle, for minute 600
(36000000 milliseconds), not two: the 10:02 bucket is still the
in-progress bucket, because finalize_candle runs only inside the rollover
branch of on_message and no shutdown flush exists anywhere in the
program. -/
theorem c8_counterexample :
    (on_message initState
        [Trade.mk 36005000 100 1,
         Trade.mk 36130000 101 2]).historical_data.map Candle.timestamp
      = [36000000] ∧
    (on_message initState
        [Trade.mk 36005000 100 1,
         Trade.mk 36130000 101 2]).historical_data.length = 1 ∧
    Option.map CurrentCandle.timestamp
      (on_message initState
        [Trade.mk 36005000 100 1,
         Trade.mk 36130000 101 2]).current_candle = some 36120000 ∧
    (on_message initState
        [Trade.mk 36005000 100 1,
         Trade.mk 36130000 101 2]).candle_start_time = some 36120000 := by
  decide

/-- C8 amended: buckets with zero trades produce no candle, and only
rolled-over buckets are finalized. For any trade history with
non-decreasing timestamps ingested from the unseeded initial state, the
finalized bucket start timestamps are exactly the distinct trade bucket
minutes in order, except the last one, whose bucket remains in progress
(the program has no shutdown flush, so the last bucket is finalized only
when a trade of a strictly later bucket arrives). In particular the
trades of the 10:00:05 / 10:02:10 example yield exactly one finalized
candle, for 10:00, and no synthetic 10:01 candle. -/
theorem c8_gap_no_flush (ts : List Trade)
    (hsorted : List.Chain' (fun a b => a.timestamp ≤ b.timestamp) ts) :
    (on_message initState ts).historical_data.map Candle.timestamp
      = (dedupConsecutive (ts.map tradeMinute)).dropLast := by
  cases ts with
  | nil => rfl
  | cons t ts =>
    have hchain0 : List.Chain (fun a b => a.timestamp ≤ b.timestamp) t ts := hsorted
    have hchainm : List.Chain (· ≤ ·) (tradeMinute t) (ts.map tradeMinute) :=
      (List.chain_map tradeMinute).mpr
        (List.Chain.imp (fun a b h => truncMinute_mono h) hchain0)
    have hstep : on_message initState (t :: ts)
        = on_message (start_new_candle initState t.price t.volume
            (truncMinute t.timestamp)) ts := rfl
    rw [hstep]
    have haux := c8_aux ts
        (start_new_candle initState t.price t.volume (truncMinute t.timestamp))
        (tradeMinute t)
        (CurrentCandle.mk (truncMinute t.timestamp) (some t.price) (some t.price)
          (some t.price) (some t.price) t.volume (t.price * t.volume) 1)
        rfl rfl rfl rfl hchainm
    rw [haux]
    rfl

/-- C8 witness: the amended theorem applied to the trades of the example,
at second 36005 (price 100, volume 1) and second 36130 (price 101, volume
2): the finalized bucket starts are exactly [36000000] (minute 600), so
neither the empty minute 601 (36060000) nor the still-open minute 602
(36120000) has a finalized candle. -/
theorem c8_gap_no_flush_witness :
    List.Chain' (fun a b => a.timestamp ≤ b.timestamp)
      [Trade.mk 36005000 100 1, Trade.mk 36130000 101 2] ∧
    (on_message initState
        [Trade.mk 36005000 100 1,
         Trade.mk 36130000 101 2]).historical_data.map Candle.timestamp
      = [36000000] ∧
    36060000 ∉ (on_message initState
        [Trade.mk 36005000 100 1,
         Trade.mk 36130000 101 2]).historical_data.map Candle.timestamp ∧
    36120000 ∉ (on_message initState
        [Trade.mk 36005000 100 1,
         Trade.mk 36130000 101 2]).historical_data.map Candle.timestamp := by
  refine ⟨by simp, ?_, ?_, ?_⟩
  · rw [c8_gap_no_flush _ (by simp)]
    decide
  · rw [c8_gap_no_flush _ (by simp)]
    decide
  · rw [c8_gap_no_flush _ (by simp)]
    decide
